import Mathlib

/-!
Shallow embedding of the ELF loader of the iago repository (package `exe`,
file `elf.go`) together with proofs about the spec's claims.

Modelling conventions:
* Go's `uint` is 64 bits wide; all `uint` arithmetic is `Nat` arithmetic
  taken modulo `2 ^ 64` where a wrap is possible.  Go's `int(x)` conversion
  of a `uint` reinterprets the two's-complement bits, modelled by `intOfUint`.
* A Go function returning `(T, error)` is modelled as `GoResult T`: `.ok`
  for a normal return, `.err msg` for a returned non-nil `error` (carrying
  the message the Go code builds with `errors.New`), and `.panic` for a Go
  runtime panic (out-of-range index or slice, nil dereference).
* Byte buffers are `List Nat`; a Go slice expression `b[lo:hi]` is in
  bounds when `lo ≤ hi ∧ hi ≤ cap b`, and we take capacity = length (the
  tightest capacity an exactly-sized allocation gives).  The re-slice
  `segmentContents[i : i+w]` in `InstructionStream` is checked against the
  capacity of the parent buffer, exactly as Go does.
* The `isa` and `trie` packages are not part of the sources; the `ISA`
  descriptors are modelled from the spec (§4.2, §8) and the trie is out of
  scope of the claims, so the constructed image is modelled without it.
-/

namespace Iago

/-- Outcome of a Go computation: normal value, returned error, or runtime panic. -/
inductive GoResult (α : Type) where
  | ok (val : α)
  | err (msg : String)
  | panic
deriving DecidableEq, Repr

/-- Sequencing that models Go's `if err != nil { return nil, err }` idiom;
a panic in the first computation likewise aborts everything. -/
def GoResult.bind {α β : Type} : GoResult α → (α → GoResult β) → GoResult β
  | .ok a, f => f a
  | .err m, _ => .err m
  | .panic, _ => .panic

/-- True exactly on a normal return. -/
def GoResult.isOk {α : Type} : GoResult α → Bool
  | .ok _ => true
  | _ => false

/-- The returned value, or a default on error/panic. -/
def GoResult.getD {α : Type} : GoResult α → α → α
  | .ok a, _ => a
  | _, d => d

/-- `2 ^ 64`, the modulus of Go's 64-bit `uint` arithmetic. -/
def U64 : Nat := 2 ^ 64

/-- Go's `int(x)` conversion of a 64-bit `uint` value: two's-complement
reinterpretation. -/
def intOfUint (n : Nat) : Int :=
  if n < 2 ^ 63 then (n : Int) else (n : Int) - (2 ^ 64 : Int)

/-- Modelled from the spec: the `isa` package is not among the sources.
The closed set of supported instruction sets (§4.2, §9: a tagged variant). -/
inductive ISA where
  | x86
  | arm
  | thumb
  | aarch64
deriving DecidableEq, Repr

/-- Modelled from the spec: instruction widths in bytes.  §4.2 gives the
dual-mode ISA a 4-byte default mode (ARM) and a 2-byte compact mode (Thumb);
§8's scenario treats x86 as a width-1 token stream; AArch64 instructions are
4 bytes.  Every width is positive (§3 invariant), which is also what makes
the Go chunking loop terminate. -/
def ISA.instructionSize : ISA → Nat
  | .x86 => 1
  | .arm => 4
  | .thumb => 2
  | .aarch64 => 4

/-- Modelled from the spec: `isa.Instruction` (§3): opcode bytes as a
hex-encoded string plus the virtual address. -/
structure Instruction where
  Op : String
  Vaddr : Nat
deriving DecidableEq, Repr

/-- Mirrors Go struct `elfField`: offsets and widths per word size. -/
structure elfField where
  offset32 : Nat
  offset64 : Nat
  size32 : Nat
  size64 : Nat
deriving DecidableEq, Repr

/-- Mirrors Go struct `segment`. -/
structure segment where
  VAddr : Nat
  Offset : Nat
  Size : Nat
deriving DecidableEq, Repr

/-- Mirrors Go struct `Elf`.  `isa` is an `Option` because the struct is
created with a nil ISA which `setISA` fills in; the trie field is omitted
(external package, never inspected by the modelled code). -/
structure Elf where
  arch : Nat
  endianness : String
  isa : Option ISA
  contents : List Nat
  programHeaderTableOffset : Nat
deriving DecidableEq, Repr

/-- The Go map `elfHeader`; a missing key yields Go's zero value. -/
def elfHeader : String → elfField := fun field =>
  if field = "arch" then ⟨0x04, 0x04, 1, 1⟩
  else if field = "endianness" then ⟨0x05, 0x05, 1, 1⟩
  else if field = "isa" then ⟨0x12, 0x12, 1, 1⟩
  else if field = "entry point" then ⟨0x18, 0x18, 4, 8⟩
  else if field = "program header table offset" then ⟨0x1c, 0x20, 4, 8⟩
  else if field = "program header table entry size" then ⟨0x2a, 0x36, 2, 2⟩
  else if field = "program header table num entries" then ⟨0x2c, 0x38, 2, 2⟩
  else ⟨0, 0, 0, 0⟩

/-- The Go map `programHeaderEntry`; a missing key yields Go's zero value. -/
def programHeaderEntry : String → elfField := fun field =>
  if field = "segment type" then ⟨0x00, 0x00, 4, 4⟩
  else if field = "flags" then ⟨0x18, 0x04, 4, 4⟩
  else if field = "segment offset" then ⟨0x04, 0x08, 4, 8⟩
  else if field = "virtual address" then ⟨0x08, 0x10, 4, 8⟩
  else if field = "file size" then ⟨0x10, 0x20, 4, 8⟩
  else if field = "mem size" then ⟨0x14, 0x28, 4, 8⟩
  else ⟨0, 0, 0, 0⟩

/-- Mirrors `elfArch`.  Note the guard is `len < 4` while the read is at
index 4, so a buffer of length exactly 4 passes the guard and the index
expression panics. -/
def elfArch (elfContents : List Nat) : GoResult Nat :=
  let archOffset : Nat := 0x04
  if elfContents.length < archOffset then
    .err "invalid ELF file: file size less than offset to arch field"
  else
    match elfContents[archOffset]? with
    | none => .panic
    | some b =>
      if b = 1 then .ok 32
      else if b = 2 then .ok 64
      else .err "invalid ELF file: arch field not 32 or 64"

/-- Mirrors `elfEndianness`; same off-by-one shape as `elfArch`. -/
def elfEndianness (elfContents : List Nat) : GoResult String :=
  let endiannessOffset : Nat := 0x05
  if elfContents.length < endiannessOffset then
    .err "invalid ELF file: file size less than offset to endianness field"
  else
    match elfContents[endiannessOffset]? with
    | none => .panic
    | some b =>
      if b = 1 then .ok "little"
      else if b = 2 then .ok "big"
      else .err "invalid ELF file: endianness field not \x22little\x22 or \x22big\x22"

/-- The offset selected for the word size, plus the base offset, in
wrapping `uint` arithmetic (`offset += baseOffset`). -/
def resolvedOffset (arch : Nat) (fieldInfo : elfField) (baseOffset : Nat) : Nat :=
  ((if arch = 32 then fieldInfo.offset32
    else if arch = 64 then fieldInfo.offset64 else 0) + baseOffset) % U64

/-- The width selected for the word size (Go leaves both zero when the arch
is neither 32 nor 64). -/
def fieldWidth (arch : Nat) (fieldInfo : elfField) : Nat :=
  if arch = 32 then fieldInfo.size32
  else if arch = 64 then fieldInfo.size64 else 0

/-- Little-endian decoding, as `binary.LittleEndian.UintN`. -/
def leDecode (value : List Nat) : Nat :=
  value.foldr (fun b acc => acc * 256 + b) 0

/-- Big-endian decoding, as `binary.BigEndian.UintN`. -/
def beDecode (value : List Nat) : Nat :=
  value.foldl (fun acc b => acc * 256 + b) 0

/-- The `binary.ByteOrder` dispatch in `fieldValue`: Go leaves `byteOrder`
nil when `endianness` is neither string, and the decode call then panics. -/
def decodeWith (endianness : String) (value : List Nat) : GoResult Nat :=
  if endianness = "big" then .ok (beDecode value)
  else if endianness = "little" then .ok (leDecode value)
  else .panic

/-- Mirrors method `fieldValue`.  The bounds guard compares the buffer
length against `int(offset+size)` computed in wrapping `uint` arithmetic;
the subsequent slice `e.contents[offset : offset+size]` panics whenever
`offset ≤ offset+size ≤ len` fails, which the guard does not fully rule out
once `offset+size` wraps past `2^63`. -/
def fieldValue (e : Elf) (field : String) (targetHeader : String → elfField)
    (baseOffset : Nat) : GoResult Nat :=
  let fieldInfo := targetHeader field
  let offset := resolvedOffset e.arch fieldInfo baseOffset
  let size := fieldWidth e.arch fieldInfo
  let hi := (offset + size) % U64
  if (e.contents.length : Int) < intOfUint hi then
    .err "invalid ELF file: value offset outside file bounds"
  else if offset ≤ hi ∧ hi ≤ e.contents.length then
    let value := (e.contents.drop offset).take (hi - offset)
    if size = 1 then .ok (value.headD 0)
    else if size = 2 then decodeWith e.endianness value
    else if size = 4 then decodeWith e.endianness value
    else if size = 8 then decodeWith e.endianness value
    else .ok 0
  else .panic

/-- The Go map `supportedISAs` inside `setISA`. -/
def supportedISAs (v : Nat) : Option ISA :=
  if v = 0x03 then some ISA.x86
  else if v = 0x3e then some ISA.x86
  else if v = 0x28 then some ISA.arm
  else if v = 0xb7 then some ISA.aarch64
  else none

/-- Mirrors method `setISA`: reads the isa byte, selects the descriptor,
replacing ARM by Thumb when the `--thumb` hint is present.  The
`term.Println` advisories are output side effects that do not affect the
returned value and are not modelled.  `errors.ErrUnsupported` prints as
"unsupported operation". -/
def setISA (e : Elf) (thumb : Bool) : GoResult Elf :=
  match fieldValue e "isa" elfHeader 0 with
  | .err m => .err m
  | .panic => .panic
  | .ok elfIsaValue =>
    match supportedISAs elfIsaValue with
    | some elfIsa =>
      let chosen := if elfIsaValue = 0x28 then
          (if thumb then ISA.thumb else elfIsa)
        else elfIsa
      .ok { e with isa := some chosen }
    | none => .err "unsupported operation"

/-- The `for i := range numEntries` loop of `locateExecutableSegments`,
written with an explicit countdown so that it is structurally recursive:
`remaining` iterations are left and `i` is the current index, so the loop
body runs for `i = 0, …, numEntries-1` exactly as in Go. -/
def locateLoop (e : Elf) (programHeaderTableOffset programHeaderTableEntrySize : Nat) :
    Nat → Nat → List segment → GoResult (List segment)
  | 0, _, segments => .ok segments
  | remaining + 1, i, segments =>
    let entryOffset := (programHeaderTableOffset + i * programHeaderTableEntrySize) % U64
    match fieldValue e "flags" programHeaderEntry entryOffset with
    | .err m => .err m
    | .panic => .panic
    | .ok flags =>
      if flags &&& 0x1 > 0 then
        match fieldValue e "segment offset" programHeaderEntry entryOffset with
        | .err m => .err m
        | .panic => .panic
        | .ok segmentOffset =>
          match fieldValue e "virtual address" programHeaderEntry entryOffset with
          | .err m => .err m
          | .panic => .panic
          | .ok virtualAddress =>
            match fieldValue e "file size" programHeaderEntry entryOffset with
            | .err m => .err m
            | .panic => .panic
            | .ok sizeInFile =>
              locateLoop e programHeaderTableOffset programHeaderTableEntrySize
                remaining (i + 1)
                (segments ++ [{ VAddr := virtualAddress, Offset := segmentOffset,
                                Size := sizeInFile }])
      else
        locateLoop e programHeaderTableOffset programHeaderTableEntrySize
          remaining (i + 1) segments

/-- Mirrors method `locateExecutableSegments`. -/
def locateExecutableSegments (e : Elf) : GoResult (List segment) :=
  match fieldValue e "program header table offset" elfHeader 0 with
  | .err m => .err m
  | .panic => .panic
  | .ok programHeaderTableOffset =>
    match fieldValue e "program header table entry size" elfHeader 0 with
    | .err m => .err m
    | .panic => .panic
    | .ok programHeaderTableEntrySize =>
      match fieldValue e "program header table num entries" elfHeader 0 with
      | .err m => .err m
      | .panic => .panic
      | .ok numEntries =>
        if numEntries = 0 then
          .err "invalid ELF file: empty program header table"
        else
          locateLoop e programHeaderTableOffset programHeaderTableEntrySize
            numEntries 0 []

/-- One lowercase hex digit, as `encoding/hex` ("0123456789abcdef"). -/
def hexDigit (n : Nat) : Char :=
  if n < 10 then Char.ofNat (48 + n) else Char.ofNat (87 + n)

/-- Two hex digits of one byte, as `encoding/hex` does `b >> 4` and `b & 0xf`. -/
def hexByte (b : Nat) : String :=
  String.mk [hexDigit (b / 16), hexDigit (b % 16)]

/-- Mirrors `hex.EncodeToString`: the bytes in file order, two digits each. -/
def hexEncode (value : List Nat) : String :=
  String.join (value.map hexByte)

/-- The inner loop of `InstructionStream` over one segment: Go iterates
`i = 0, w, 2w, …` while `i < len(segmentContents)`, which for `w ≥ 1` is
exactly the first `⌈segLen/w⌉` multiples of `w`.  Each chunk is the slice
`segmentContents[i : i+w]`, whose upper bound is checked against the parent
buffer's capacity (= its length here), so the final chunk can reach past
the segment's end into the rest of the file, and panics only when even the
file ends too early. -/
def segmentChunks (contents : List Nat) (off vaddr segLen w : Nat) :
    GoResult (List Instruction) :=
  let n := (segLen + w - 1) / w
  if (List.range n).all (fun k => decide (off + k * w + w ≤ contents.length)) then
    .ok ((List.range n).map (fun k =>
      { Op := hexEncode ((contents.drop (off + k * w)).take w)
        Vaddr := (vaddr + k * w) % U64 }))
  else .panic

/-- The outer loop of `InstructionStream` over the segment list.  The slice
`e.contents[segment.Offset : segment.Offset+segment.Size]` panics unless
`Offset ≤ Offset+Size ≤ len` (in wrapping `uint` arithmetic). -/
def streamLoop (contents : List Nat) (instructionSize : Nat) :
    List segment → GoResult (List Instruction)
  | [] => .ok []
  | seg :: rest =>
    let hi := (seg.Offset + seg.Size) % U64
    if seg.Offset ≤ hi ∧ hi ≤ contents.length then
      match segmentChunks contents seg.Offset seg.VAddr seg.Size instructionSize with
      | .err m => .err m
      | .panic => .panic
      | .ok instructions =>
        match streamLoop contents instructionSize rest with
        | .err m => .err m
        | .panic => .panic
        | .ok restInstructions => .ok (instructions ++ restInstructions)
    else .panic

/-- Mirrors method `InstructionStream`; calling it on an `Elf` whose `isa`
is still nil would panic at `e.isa.InstructionSize()`. -/
def InstructionStream (e : Elf) (executableSegments : List segment) :
    GoResult (List Instruction) :=
  match e.isa with
  | none => .panic
  | some i => streamLoop e.contents i.instructionSize executableSegments

/-- Mirrors `NewElf`: each construction step either succeeds or aborts the
whole construction with its error (`GoResult.bind` is the
`if err != nil { return nil, err }` idiom). -/
def NewElf (elfContents : List Nat) (thumb : Bool) : GoResult Elf :=
  (elfArch elfContents).bind fun arch =>
  (elfEndianness elfContents).bind fun endianness =>
  let elf : Elf := { arch := arch, endianness := endianness, isa := none,
                     contents := elfContents, programHeaderTableOffset := 0 }
  (setISA elf thumb).bind fun elf1 =>
  (locateExecutableSegments elf1).bind fun executableSegments =>
  (InstructionStream elf1 executableSegments).bind fun instructionStream =>
  if instructionStream.length = 0 then .err "no executable segments found"
  else .ok elf1

/-- Written from the spec's words (§4.3): process one program-header entry —
read the flags at the entry's base offset, test bit 0 (the executable bit),
and for an executable entry build a Segment from the file offset, virtual
address and file size fields; a non-executable entry contributes nothing. -/
def segmentOfEntry (e : Elf) (entryOffset : Nat) : GoResult (Option segment) :=
  match fieldValue e "flags" programHeaderEntry entryOffset with
  | .err m => .err m
  | .panic => .panic
  | .ok flags =>
    if flags.testBit 0 then
      match fieldValue e "segment offset" programHeaderEntry entryOffset with
      | .err m => .err m
      | .panic => .panic
      | .ok fileOffset =>
        match fieldValue e "virtual address" programHeaderEntry entryOffset with
        | .err m => .err m
        | .panic => .panic
        | .ok virtualAddress =>
          match fieldValue e "file size" programHeaderEntry entryOffset with
          | .err m => .err m
          | .panic => .panic
          | .ok sizeInFile =>
            .ok (some { VAddr := virtualAddress, Offset := fileOffset,
                        Size := sizeInFile })
    else .ok none

/-- Written from the spec's words (§4.3): iterate the given entry indices in
file order, keeping the segments of executable entries in that order; any
failing read aborts the whole locate operation with that error. -/
def entriesSpec (e : Elf) (tableOffset entrySize : Nat) :
    List Nat → GoResult (List segment)
  | [] => .ok []
  | i :: rest =>
    match segmentOfEntry e ((tableOffset + i * entrySize) % U64) with
    | .err m => .err m
    | .panic => .panic
    | .ok none => entriesSpec e tableOffset entrySize rest
    | .ok (some s) =>
      match entriesSpec e tableOffset entrySize rest with
      | .err m => .err m
      | .panic => .panic
      | .ok l => .ok (s :: l)

/-- Written from the spec's words (§4.3): read the table offset, entry size
and entry count from the header, fail on an empty table, then walk the
entries `0, …, count-1` in file order. -/
def locateSpec (e : Elf) : GoResult (List segment) :=
  match fieldValue e "program header table offset" elfHeader 0 with
  | .err m => .err m
  | .panic => .panic
  | .ok tableOffset =>
    match fieldValue e "program header table entry size" elfHeader 0 with
    | .err m => .err m
    | .panic => .panic
    | .ok entrySize =>
      match fieldValue e "program header table num entries" elfHeader 0 with
      | .err m => .err m
      | .panic => .panic
      | .ok count =>
        if count = 0 then
          .err "invalid ELF file: empty program header table"
        else
          entriesSpec e tableOffset entrySize (List.range count)

/-- Prepend already-collected segments to a loop result. -/
def appendOk (acc : List segment) : GoResult (List segment) → GoResult (List segment)
  | .ok l => .ok (acc ++ l)
  | .err m => .err m
  | .panic => .panic

/-- A 32-bit little-endian ARM image with one executable segment at file offset 0x50 of size 6 (not a multiple of the 4-byte ARM instruction width); the buffer ends exactly with the segment. -/
def B1a : List Nat := [0x7f, 0x45, 0x4c, 0x46, 0x01, 0x01, 0, 0, 0, 0, 0, 0, 0, 0, 0, 0, 0, 0, 0x28, 0, 0, 0, 0, 0, 0, 0, 0, 0, 0x30, 0, 0, 0, 0, 0, 0, 0, 0, 0, 0, 0, 0, 0, 0x20, 0, 0x01, 0, 0, 0, 0x01, 0, 0, 0, 0x50, 0, 0, 0, 0, 0x20, 0, 0, 0, 0, 0, 0, 0x06, 0, 0, 0, 0x06, 0, 0, 0, 0x01, 0, 0, 0, 0, 0, 0, 0, 0x10, 0x11, 0x12, 0x13, 0x14, 0x15]

/-- `B1a` with two extra bytes `0xaa 0xbb` after the segment. -/
def B1b : List Nat := [0x7f, 0x45, 0x4c, 0x46, 0x01, 0x01, 0, 0, 0, 0, 0, 0, 0, 0, 0, 0, 0, 0, 0x28, 0, 0, 0, 0, 0, 0, 0, 0, 0, 0x30, 0, 0, 0, 0, 0, 0, 0, 0, 0, 0, 0, 0, 0, 0x20, 0, 0x01, 0, 0, 0, 0x01, 0, 0, 0, 0x50, 0, 0, 0, 0, 0x20, 0, 0, 0, 0, 0, 0, 0x06, 0, 0, 0, 0x06, 0, 0, 0, 0x01, 0, 0, 0, 0, 0, 0, 0, 0x10, 0x11, 0x12, 0x13, 0x14, 0x15, 0xaa, 0xbb]

/-- A 32-bit little-endian x86 image whose single executable program-header entry declares file size 0xffff, far beyond the 80-byte buffer. -/
def B2 : List Nat := [0, 0, 0, 0, 0x01, 0x01, 0, 0, 0, 0, 0, 0, 0, 0, 0, 0, 0, 0, 0x03, 0, 0, 0, 0, 0, 0, 0, 0, 0, 0x30, 0, 0, 0, 0, 0, 0, 0, 0, 0, 0, 0, 0, 0, 0x20, 0, 0x01, 0, 0, 0, 0, 0, 0, 0, 0, 0, 0, 0, 0, 0x10, 0, 0, 0, 0, 0, 0, 0xff, 0xff, 0, 0, 0, 0, 0, 0, 0x01, 0, 0, 0, 0, 0, 0, 0]

/-- A 32-bit little-endian x86 image whose single program-header entry is not executable, so no segments are found. -/
def B8 : List Nat := [0, 0, 0, 0, 0x01, 0x01, 0, 0, 0, 0, 0, 0, 0, 0, 0, 0, 0, 0, 0x03, 0, 0, 0, 0, 0, 0, 0, 0, 0, 0x30, 0, 0, 0, 0, 0, 0, 0, 0, 0, 0, 0, 0, 0, 0x20, 0, 0x01, 0, 0, 0, 0, 0, 0, 0, 0, 0, 0, 0, 0, 0, 0, 0, 0, 0, 0, 0, 0, 0, 0, 0, 0, 0, 0, 0, 0, 0, 0, 0, 0, 0, 0, 0]

/-- A 32-bit little-endian image whose program-header-table entry count field is 0. -/
def B9 : List Nat := [0, 0, 0, 0, 0x01, 0x01, 0, 0, 0, 0, 0, 0, 0, 0, 0, 0, 0, 0, 0, 0, 0, 0, 0, 0, 0, 0, 0, 0, 0x30, 0, 0, 0, 0, 0, 0, 0, 0, 0, 0, 0, 0, 0, 0x20, 0, 0, 0]

/-- A 64-bit little-endian image with two program-header entries: entry 0 is executable with all fields in bounds; entry 1 is not executable and the buffer ends right after its flags field, so its segment offset, virtual address and file size fields are out of bounds. -/
def B10 : List Nat := [0, 0, 0, 0, 0x02, 0x01, 0, 0, 0, 0, 0, 0, 0, 0, 0, 0, 0, 0, 0x03, 0, 0, 0, 0, 0, 0, 0, 0, 0, 0, 0, 0, 0, 0x40, 0, 0, 0, 0, 0, 0, 0, 0, 0, 0, 0, 0, 0, 0, 0, 0, 0, 0, 0, 0, 0, 0x38, 0, 0x02, 0, 0, 0, 0, 0, 0, 0, 0, 0, 0, 0, 0x01, 0, 0, 0, 0, 0, 0, 0, 0, 0, 0, 0, 0, 0x10, 0, 0, 0, 0, 0, 0, 0, 0, 0, 0, 0, 0, 0, 0, 0x04, 0, 0, 0, 0, 0, 0, 0, 0, 0, 0, 0, 0, 0, 0, 0, 0, 0, 0, 0, 0, 0, 0, 0, 0, 0, 0, 0, 0, 0, 0, 0]

/-- A 19-byte buffer whose ISA identifier byte (offset 0x12) is 0x28 (ARM). -/
def B7 : List Nat := [0, 0, 0, 0, 0, 0, 0, 0, 0, 0, 0, 0, 0, 0, 0, 0, 0, 0, 0x28]

/-! Helper lemmas. -/

theorem GoResult.ok_bind {α β : Type} (a : α) (f : α → GoResult β) :
    (GoResult.ok a).bind f = f a := rfl

theorem GoResult.err_bind {α β : Type} (m : String) (f : α → GoResult β) :
    (GoResult.err m : GoResult α).bind f = .err m := rfl

theorem GoResult.panic_bind {α β : Type} (f : α → GoResult β) :
    (GoResult.panic : GoResult α).bind f = .panic := rfl

theorem and_one_pos_iff (n : Nat) : 0 < n &&& 0x1 ↔ n.testBit 0 = true := by
  rw [Nat.and_one_is_mod, Nat.testBit_zero]
  rcases Nat.mod_two_eq_zero_or_one n with h | h <;> simp [h]

theorem appendOk_nil (r : GoResult (List segment)) : appendOk [] r = r := by
  cases r <;> simp [appendOk]

theorem locateLoop_eq_entriesSpec (e : Elf) (t esz : Nat) :
    ∀ (rem i : Nat) (acc : List segment),
      locateLoop e t esz rem i acc =
        appendOk acc (entriesSpec e t esz (List.range' i rem)) := by
  intro rem
  induction rem with
  | zero =>
    intro i acc
    simp [locateLoop, entriesSpec, appendOk]
  | succ rem ih =>
    intro i acc
    rw [List.range'_succ]
    simp only [locateLoop, entriesSpec, segmentOfEntry]
    cases hf : fieldValue e "flags" programHeaderEntry ((t + i * esz) % U64) with
    | err m => simp [hf, appendOk]
    | panic => simp [hf, appendOk]
    | ok flags =>
      by_cases hb : 0 < flags &&& 0x1
      · have ht : flags.testBit 0 = true := (and_one_pos_iff flags).1 hb
        simp only [hf, ht, if_pos hb, if_true]
        cases hso : fieldValue e "segment offset" programHeaderEntry ((t + i * esz) % U64) with
        | err m => simp [appendOk]
        | panic => simp [appendOk]
        | ok so =>
          cases hva : fieldValue e "virtual address" programHeaderEntry ((t + i * esz) % U64) with
          | err m => simp [appendOk]
          | panic => simp [appendOk]
          | ok va =>
            cases hfs : fieldValue e "file size" programHeaderEntry ((t + i * esz) % U64) with
            | err m => simp [appendOk]
            | panic => simp [appendOk]
            | ok fs =>
              dsimp only
              rw [ih]
              cases hrest : entriesSpec e t esz (List.range' (i + 1) rem) with
              | err m => simp [appendOk]
              | panic => simp [appendOk]
              | ok l => simp [appendOk]
      · have ht : flags.testBit 0 = false := by
          rcases Bool.eq_false_or_eq_true (flags.testBit 0) with h | h
          · exact absurd ((and_one_pos_iff flags).2 h) hb
          · exact h
        simp only [hf, ht, if_neg hb, if_false]
        exact ih (i + 1) acc

theorem locateLoop_ok (e : Elf) (t esz : Nat) :
    ∀ (rem i : Nat) (acc : List segment),
      (∀ k, i ≤ k → k < i + rem →
        (fieldValue e "flags" programHeaderEntry ((t + k * esz) % U64)).isOk = true ∧
        (0 < (fieldValue e "flags" programHeaderEntry ((t + k * esz) % U64)).getD 0 &&& 0x1 →
          (fieldValue e "segment offset" programHeaderEntry ((t + k * esz) % U64)).isOk = true ∧
          (fieldValue e "virtual address" programHeaderEntry ((t + k * esz) % U64)).isOk = true ∧
          (fieldValue e "file size" programHeaderEntry ((t + k * esz) % U64)).isOk = true)) →
      ∃ segs, locateLoop e t esz rem i acc = .ok segs := by
  intro rem
  induction rem with
  | zero => intro i acc _; exact ⟨acc, rfl⟩
  | succ rem ih =>
    intro i acc h
    obtain ⟨hok, hexec⟩ := h i (Nat.le_refl i) (by omega)
    cases hf : fieldValue e "flags" programHeaderEntry ((t + i * esz) % U64) with
    | err m => rw [hf] at hok; simp [GoResult.isOk] at hok
    | panic => rw [hf] at hok; simp [GoResult.isOk] at hok
    | ok flags =>
      rw [hf] at hexec
      simp only [locateLoop, hf]
      by_cases hb : 0 < flags &&& 0x1
      · obtain ⟨hso, hva, hfs⟩ := hexec (by simpa [GoResult.getD] using hb)
        rw [if_pos hb]
        cases h1 : fieldValue e "segment offset" programHeaderEntry ((t + i * esz) % U64) with
        | err m => rw [h1] at hso; simp [GoResult.isOk] at hso
        | panic => rw [h1] at hso; simp [GoResult.isOk] at hso
        | ok so =>
          cases h2 : fieldValue e "virtual address" programHeaderEntry ((t + i * esz) % U64) with
          | err m => rw [h2] at hva; simp [GoResult.isOk] at hva
          | panic => rw [h2] at hva; simp [GoResult.isOk] at hva
          | ok va =>
            cases h3 : fieldValue e "file size" programHeaderEntry ((t + i * esz) % U64) with
            | err m => rw [h3] at hfs; simp [GoResult.isOk] at hfs
            | panic => rw [h3] at hfs; simp [GoResult.isOk] at hfs
            | ok fs =>
              dsimp only
              exact ih (i + 1) _ (fun k hk1 hk2 => h k (by omega) (by omega))
      · rw [if_neg hb]
        exact ih (i + 1) acc (fun k hk1 hk2 => h k (by omega) (by omega))

theorem segmentChunks_getElem (contents : List Nat) (off vaddr segLen w k : Nat)
    (l : List Instruction) (h : segmentChunks contents off vaddr segLen w = .ok l)
    (hk : k < l.length) :
    l[k] = { Op := hexEncode ((contents.drop (off + k * w)).take w)
             Vaddr := (vaddr + k * w) % U64 } := by
  simp only [segmentChunks] at h
  split at h
  · injection h with h'
    subst h'
    simp
  · exact GoResult.noConfusion h

theorem decodeWith_exists (endianness : String) (value : List Nat)
    (hend : endianness = "big" ∨ endianness = "little") :
    ∃ v, decodeWith endianness value = .ok v := by
  rcases hend with h | h <;> simp [decodeWith, h]

/-! Claim theorems. -/

/-- C1: the spec claims a trailing remainder shorter than the instruction
width is silently dropped (floor(sizeInFile/width) instructions, no panic).
The code disagrees: the loop condition `i < len(segmentContents)` still
enters the final partial chunk, so for the ARM image `B1a` (segment size 6,
width 4, buffer ending with the segment) the slice `[4:8]` exceeds the
buffer and `NewElf` panics, and for `B1b` (same image with two bytes after
the segment) the stream has ⌈6/4⌉ = 2 instructions — not ⌊6/4⌋ = 1 — whose
second opcode `"1415aabb"` contains the bytes `0xaa 0xbb` lying outside the
segment. -/
theorem instructionStream_remainder_bug :
    NewElf B1a false = .panic
    ∧ NewElf B1b false = .ok ⟨32, "little", some ISA.arm, B1b, 0⟩
    ∧ InstructionStream ⟨32, "little", some ISA.arm, B1b, 0⟩ [⟨0x2000, 0x50, 6⟩] =
        .ok [⟨"10111213", 0x2000⟩, ⟨"1415aabb", 0x2004⟩]
    ∧ 6 / ISA.arm.instructionSize = 1 := by
  refine ⟨by decide, by decide, by decide, by decide⟩

/-- C2: the spec claims every located segment satisfies
fileOffset + sizeInFile ≤ buffer length, making the segment slice in
`InstructionStream` in bounds.  The code never checks the decoded segment
fields: for the crafted image `B2`, `locateExecutableSegments` returns a
segment with size 0xffff against an 80-byte buffer, and the slice in
`InstructionStream` makes `NewElf` panic. -/
theorem segment_bounds_unchecked :
    locateExecutableSegments ⟨32, "little", some ISA.x86, B2, 0⟩ =
      .ok [⟨0x1000, 0, 0xffff⟩]
    ∧ 0 + 0xffff > B2.length
    ∧ NewElf B2 false = .panic := by
  refine ⟨by decide, by decide, by decide⟩

/-- C3: the spec claims a buffer too short to contain offset 0x04 fails
with an InvalidFormat error rather than panicking.  The guard in `elfArch`
is `len < 4` while the read is at index 4, so the 4-byte buffer passes the
guard and panics; shorter buffers do error, and a word-size byte other than
1/2 errors as claimed. -/
theorem elfArch_truncation_bug :
    elfArch [0x7f, 0x45, 0x4c, 0x46] = .panic
    ∧ elfArch [0x7f, 0x45, 0x4c] =
        .err "invalid ELF file: file size less than offset to arch field"
    ∧ elfArch [0x7f, 0x45, 0x4c, 0x46, 3] =
        .err "invalid ELF file: arch field not 32 or 64" := by
  refine ⟨by decide, by decide, by decide⟩

/-- C4: every emitted instruction of a successfully streamed segment has as
opcode the hex encoding, in file order, of the instruction-width chunk of
the buffer starting at the segment's file offset plus the chunk's offset,
and as virtual address the segment's virtual address plus that offset; and
the stream does not depend on the image's endianness (the second conjunct
holds for every endianness string). -/
theorem instructionStream_emits (e : Elf) (i : ISA) (seg : segment)
    (l : List Instruction) (k : Nat)
    (hisa : e.isa = some i)
    (h : InstructionStream e [seg] = .ok l)
    (hk : k < l.length)
    (hv : seg.VAddr + k * i.instructionSize < U64) :
    l[k] = { Op := hexEncode ((e.contents.drop (seg.Offset + k * i.instructionSize)).take
                     i.instructionSize)
             Vaddr := seg.VAddr + k * i.instructionSize } ∧
    (∀ en, InstructionStream { e with endianness := en } [seg] = .ok l) := by
  refine ⟨?_, fun en => h⟩
  unfold InstructionStream at h
  rw [hisa] at h
  simp only [streamLoop] at h
  split at h
  · cases hc : segmentChunks e.contents seg.Offset seg.VAddr seg.Size i.instructionSize with
    | err m => rw [hc] at h; exact GoResult.noConfusion h
    | panic => rw [hc] at h; exact GoResult.noConfusion h
    | ok instrs =>
      rw [hc] at h
      simp only [streamLoop] at h
      injection h with h'
      rw [List.append_nil] at h'
      subst h'
      have := segmentChunks_getElem e.contents seg.Offset seg.VAddr seg.Size
        i.instructionSize k instrs hc hk
      rw [this]
      rw [Nat.mod_eq_of_lt hv]
  · exact GoResult.noConfusion h

/-- Witness for C4: a Thumb-width segment of [0,1,2,3,4,5,6,7] at offset 2,
size 4, virtual address 0x1000; chunk 1 is bytes [4,5] → opcode "0405" at
address 0x1002. -/
theorem instructionStream_emits_witness :
    InstructionStream ⟨32, "little", some ISA.thumb, [0, 1, 2, 3, 4, 5, 6, 7], 0⟩
      [⟨0x1000, 2, 4⟩] = .ok [⟨"0203", 0x1000⟩, ⟨"0405", 0x1002⟩] ∧
    ([(⟨"0203", 0x1000⟩ : Instruction), ⟨"0405", 0x1002⟩])[1] = ⟨"0405", 0x1002⟩ :=
  ⟨by decide,
    (instructionStream_emits ⟨32, "little", some ISA.thumb, [0, 1, 2, 3, 4, 5, 6, 7], 0⟩
      ISA.thumb ⟨0x1000, 2, 4⟩ [⟨"0203", 0x1000⟩, ⟨"0405", 0x1002⟩] 1 rfl (by decide)
      (by decide) (by decide)).1⟩

/-- C5 counterexample: for the attacker-controlled base offset 2^64 - 8 on
a 64-bit image (flags field: offset 4, width 4), the resolved offset wraps
to 2^64 - 4 and `offset+size` wraps to 0, so the guard
`len < int(offset+size)` passes and the slice panics — refuting the claim
that `fieldValue` never panics for arbitrarily large base offsets. -/
theorem fieldValue_overflow_panic :
    fieldValue ⟨64, "little", none, List.replicate 16 0, 0⟩ "flags" programHeaderEntry
      (2 ^ 64 - 8) = .panic := by decide

/-- C5 (amended): whenever the resolved field offset plus the field width
does not overflow a signed 64-bit int (is below 2^63) and the image's byte
order is valid, `fieldValue` returns the OutOfBounds error exactly when
offset+width exceeds the buffer length, and otherwise returns a value with
no panic and no out-of-bounds access. -/
theorem fieldValue_bounds (e : Elf) (field : String) (tbl : String → elfField)
    (baseOffset : Nat)
    (hend : e.endianness = "big" ∨ e.endianness = "little")
    (hov : resolvedOffset e.arch (tbl field) baseOffset + fieldWidth e.arch (tbl field) < 2 ^ 63) :
    (e.contents.length <
        resolvedOffset e.arch (tbl field) baseOffset + fieldWidth e.arch (tbl field) →
      fieldValue e field tbl baseOffset =
        .err "invalid ELF file: value offset outside file bounds")
    ∧ (resolvedOffset e.arch (tbl field) baseOffset + fieldWidth e.arch (tbl field) ≤
        e.contents.length →
      ∃ v, fieldValue e field tbl baseOffset = .ok v) := by
  have hU : resolvedOffset e.arch (tbl field) baseOffset + fieldWidth e.arch (tbl field) < U64 := by
    unfold U64; omega
  have hmod : (resolvedOffset e.arch (tbl field) baseOffset + fieldWidth e.arch (tbl field)) % U64
      = resolvedOffset e.arch (tbl field) baseOffset + fieldWidth e.arch (tbl field) :=
    Nat.mod_eq_of_lt hU
  have hint : intOfUint ((resolvedOffset e.arch (tbl field) baseOffset +
      fieldWidth e.arch (tbl field)) % U64)
      = ((resolvedOffset e.arch (tbl field) baseOffset + fieldWidth e.arch (tbl field) : Nat) : Int) := by
    rw [hmod]
    unfold intOfUint
    rw [if_pos hov]
  constructor
  · intro hlt
    unfold fieldValue
    dsimp only
    rw [hint, if_pos (by exact_mod_cast hlt)]
  · intro hle
    unfold fieldValue
    dsimp only
    rw [hint, if_neg (by exact_mod_cast Nat.not_lt.2 hle), hmod,
      if_pos ⟨Nat.le_add_right _ _, hle⟩]
    by_cases h1 : fieldWidth e.arch (tbl field) = 1
    · rw [if_pos h1]; exact ⟨_, rfl⟩
    · rw [if_neg h1]
      by_cases h2 : fieldWidth e.arch (tbl field) = 2
      · rw [if_pos h2]; exact decodeWith_exists _ _ hend
      · rw [if_neg h2]
        by_cases h4 : fieldWidth e.arch (tbl field) = 4
        · rw [if_pos h4]; exact decodeWith_exists _ _ hend
        · rw [if_neg h4]
          by_cases h8 : fieldWidth e.arch (tbl field) = 8
          · rw [if_pos h8]; exact decodeWith_exists _ _ hend
          · rw [if_neg h8]; exact ⟨_, rfl⟩

/-- Witness for the amended C5: the arch field (offset 4, width 1) of a
5-byte buffer is in bounds and reads successfully. -/
theorem fieldValue_bounds_witness :
    (resolvedOffset 32 (elfHeader "arch") 0 + fieldWidth 32 (elfHeader "arch") ≤ 5) ∧
    ∃ v, fieldValue ⟨32, "little", none, [0x7f, 0x45, 0x4c, 0x46, 0x01], 0⟩ "arch"
      elfHeader 0 = .ok v :=
  ⟨by decide,
    (fieldValue_bounds ⟨32, "little", none, [0x7f, 0x45, 0x4c, 0x46, 0x01], 0⟩
      "arch" elfHeader 0 (Or.inr rfl) (by decide)).2 (by decide)⟩

/-- C6: `locateExecutableSegments` (translated from the Go loop with its
accumulator) coincides with `locateSpec`, the locator written from the
spec's words: iterate entries 0..count-1 in file order at
tableOffset + index·entrySize, keep exactly those whose flags value has
bit 0 set, building each kept Segment from the entry's file offset,
virtual address and file size fields, preserving file order. -/
theorem locate_eq_locateSpec (e : Elf) :
    locateExecutableSegments e = locateSpec e := by
  unfold locateExecutableSegments locateSpec
  cases h1 : fieldValue e "program header table offset" elfHeader 0 with
  | err m => rfl
  | panic => rfl
  | ok t =>
    cases h2 : fieldValue e "program header table entry size" elfHeader 0 with
    | err m => rfl
    | panic => rfl
    | ok esz =>
      cases h3 : fieldValue e "program header table num entries" elfHeader 0 with
      | err m => rfl
      | panic => rfl
      | ok n =>
        dsimp only
        by_cases hn : n = 0
        · simp [hn]
        · rw [if_neg hn, if_neg hn, List.range_eq_range',
            locateLoop_eq_entriesSpec e t esz n 0 [], appendOk_nil]

/-- C7: ISA selection — when the isa byte reads as v: v = 0x28 (ARM) picks
Thumb with the hint and ARM without it; v = 0x03/0x3e (x86) and v = 0xb7
(AArch64) pick their descriptors regardless of the hint; any other value
fails with the unsupported-ISA error.  The advisory prints are side effects
that do not influence the selection. -/
theorem setISA_selection (e : Elf) (thumb : Bool) (v : Nat)
    (h : fieldValue e "isa" elfHeader 0 = .ok v) :
    (v = 0x28 → setISA e thumb =
      .ok { e with isa := some (if thumb then ISA.thumb else ISA.arm) })
    ∧ ((v = 0x03 ∨ v = 0x3e) → setISA e thumb = .ok { e with isa := some ISA.x86 })
    ∧ (v = 0xb7 → setISA e thumb = .ok { e with isa := some ISA.aarch64 })
    ∧ (v ≠ 0x03 → v ≠ 0x3e → v ≠ 0x28 → v ≠ 0xb7 →
        setISA e thumb = .err "unsupported operation") := by
  refine ⟨?_, ?_, ?_, ?_⟩
  · rintro rfl
    simp [setISA, h, supportedISAs]
  · rintro (rfl | rfl) <;> simp [setISA, h, supportedISAs]
  · rintro rfl
    simp [setISA, h, supportedISAs]
  · intro n3 n3e n28 nb7
    simp [setISA, h, supportedISAs, n3, n3e, n28, nb7]

/-- Witness for C7: isa byte 0x28 with the thumb hint selects Thumb. -/
theorem setISA_selection_witness :
    setISA ⟨32, "little", none, B7, 0⟩ true = .ok ⟨32, "little", some ISA.thumb, B7, 0⟩ :=
  (setISA_selection ⟨32, "little", none, B7, 0⟩ true 0x28 (by decide)).1 rfl

/-- C8: image construction is atomic — `NewElf` returns an image exactly
when word-size and byte-order detection, ISA selection, segment location
and the instruction stream all succeed and the stream is nonempty; each
step's error is returned as `NewElf`'s error (with no image, by the shape
of `GoResult`), and an empty stream yields the NoExecutableSegments
error. -/
theorem newElf_atomic (contents : List Nat) (thumb : Bool) :
    ((∃ e, NewElf contents thumb = .ok e) ↔
      ∃ a en e1 segs l,
        elfArch contents = .ok a ∧ elfEndianness contents = .ok en ∧
        setISA ⟨a, en, none, contents, 0⟩ thumb = .ok e1 ∧
        locateExecutableSegments e1 = .ok segs ∧
        InstructionStream e1 segs = .ok l ∧ l ≠ [])
    ∧ (∀ m, elfArch contents = .err m → NewElf contents thumb = .err m)
    ∧ (∀ a m, elfArch contents = .ok a → elfEndianness contents = .err m →
        NewElf contents thumb = .err m)
    ∧ (∀ a en m, elfArch contents = .ok a → elfEndianness contents = .ok en →
        setISA ⟨a, en, none, contents, 0⟩ thumb = .err m →
        NewElf contents thumb = .err m)
    ∧ (∀ a en e1 m, elfArch contents = .ok a → elfEndianness contents = .ok en →
        setISA ⟨a, en, none, contents, 0⟩ thumb = .ok e1 →
        locateExecutableSegments e1 = .err m → NewElf contents thumb = .err m)
    ∧ (∀ a en e1 segs, elfArch contents = .ok a → elfEndianness contents = .ok en →
        setISA ⟨a, en, none, contents, 0⟩ thumb = .ok e1 →
        locateExecutableSegments e1 = .ok segs →
        InstructionStream e1 segs = .ok [] →
        NewElf contents thumb = .err "no executable segments found") := by
  refine ⟨⟨?_, ?_⟩, ?_, ?_, ?_, ?_, ?_⟩
  · rintro ⟨e, he⟩
    unfold NewElf at he
    cases h1 : elfArch contents with
    | err m => rw [h1, GoResult.err_bind] at he; exact GoResult.noConfusion he
    | panic => rw [h1, GoResult.panic_bind] at he; exact GoResult.noConfusion he
    | ok a =>
      rw [h1, GoResult.ok_bind] at he
      cases h2 : elfEndianness contents with
      | err m => rw [h2, GoResult.err_bind] at he; exact GoResult.noConfusion he
      | panic => rw [h2, GoResult.panic_bind] at he; exact GoResult.noConfusion he
      | ok en =>
        rw [h2, GoResult.ok_bind] at he
        dsimp only at he
        cases h3 : setISA ⟨a, en, none, contents, 0⟩ thumb with
        | err m => rw [h3, GoResult.err_bind] at he; exact GoResult.noConfusion he
        | panic => rw [h3, GoResult.panic_bind] at he; exact GoResult.noConfusion he
        | ok e1 =>
          rw [h3, GoResult.ok_bind] at he
          cases h4 : locateExecutableSegments e1 with
          | err m => rw [h4, GoResult.err_bind] at he; exact GoResult.noConfusion he
          | panic => rw [h4, GoResult.panic_bind] at he; exact GoResult.noConfusion he
          | ok segs =>
            rw [h4, GoResult.ok_bind] at he
            cases h5 : InstructionStream e1 segs with
            | err m => rw [h5, GoResult.err_bind] at he; exact GoResult.noConfusion he
            | panic => rw [h5, GoResult.panic_bind] at he; exact GoResult.noConfusion he
            | ok l =>
              rw [h5, GoResult.ok_bind] at he
              by_cases hl : l.length = 0
              · rw [if_pos hl] at he; exact GoResult.noConfusion he
              · exact ⟨a, en, e1, segs, l, rfl, rfl, h3, h4, h5, by
                  intro hnil; exact hl (by simp [hnil])⟩
  · rintro ⟨a, en, e1, segs, l, h1, h2, h3, h4, h5, h6⟩
    refine ⟨e1, ?_⟩
    unfold NewElf
    rw [h1, GoResult.ok_bind, h2, GoResult.ok_bind]
    dsimp only
    rw [h3, GoResult.ok_bind, h4, GoResult.ok_bind, h5, GoResult.ok_bind,
      if_neg (by simpa using h6)]
  · intro m h1
    unfold NewElf
    rw [h1, GoResult.err_bind]
  · intro a m h1 h2
    unfold NewElf
    rw [h1, GoResult.ok_bind, h2, GoResult.err_bind]
  · intro a en m h1 h2 h3
    unfold NewElf
    rw [h1, GoResult.ok_bind, h2, GoResult.ok_bind]
    dsimp only
    rw [h3, GoResult.err_bind]
  · intro a en e1 m h1 h2 h3 h4
    unfold NewElf
    rw [h1, GoResult.ok_bind, h2, GoResult.ok_bind]
    dsimp only
    rw [h3, GoResult.ok_bind, h4, GoResult.err_bind]
  · intro a en e1 segs h1 h2 h3 h4 h5
    unfold NewElf
    rw [h1, GoResult.ok_bind, h2, GoResult.ok_bind]
    dsimp only
    rw [h3, GoResult.ok_bind, h4, GoResult.ok_bind, h5, GoResult.ok_bind]
    simp

/-- Witness for C8: the image `B8` has no executable entry, so every step
succeeds with an empty stream and `NewElf` fails with the
NoExecutableSegments error. -/
theorem newElf_atomic_witness :
    NewElf B8 false = .err "no executable segments found" :=
  (newElf_atomic B8 false).2.2.2.2.2 32 "little"
    ⟨32, "little", some ISA.x86, B8, 0⟩ [] (by decide) (by decide) (by decide)
    (by decide) (by decide)

/-- C9: when the three header fields are readable and the entry count
decodes to 0, segment location fails with the EmptyProgramHeaderTable
error.  The hypotheses constrain only the fixed header fields, so the
conclusion holds whatever bytes any table entry holds — no entry is
read. -/
theorem locate_empty_table (e : Elf) (t esz : Nat)
    (h1 : fieldValue e "program header table offset" elfHeader 0 = .ok t)
    (h2 : fieldValue e "program header table entry size" elfHeader 0 = .ok esz)
    (h3 : fieldValue e "program header table num entries" elfHeader 0 = .ok 0) :
    locateExecutableSegments e = .err "invalid ELF file: empty program header table" := by
  simp only [locateExecutableSegments, h1, h2, h3]
  rw [if_pos trivial]

/-- Witness for C9: the image `B9` declares an entry count of 0. -/
theorem locate_empty_table_witness :
    locateExecutableSegments ⟨32, "little", none, B9, 0⟩ =
      .err "invalid ELF file: empty program header table" :=
  locate_empty_table ⟨32, "little", none, B9, 0⟩ 0x30 0x20
    (by decide) (by decide) (by decide)

/-- C10: segment location succeeds as soon as every entry's flags field is
readable and the remaining three fields are readable for the entries whose
executable bit is set — nothing is required of the other fields of
non-executable entries, because they are never read.  (The witness
instantiates this with a buffer whose non-executable entry is truncated
right after its flags field.) -/
theorem locate_skips_nonexecutable (e : Elf) (t esz n : Nat)
    (h1 : fieldValue e "program header table offset" elfHeader 0 = .ok t)
    (h2 : fieldValue e "program header table entry size" elfHeader 0 = .ok esz)
    (h3 : fieldValue e "program header table num entries" elfHeader 0 = .ok n)
    (hn : 0 < n)
    (h5 : ∀ k, k < n →
      (fieldValue e "flags" programHeaderEntry ((t + k * esz) % U64)).isOk = true ∧
      (0 < (fieldValue e "flags" programHeaderEntry ((t + k * esz) % U64)).getD 0 &&& 0x1 →
        (fieldValue e "segment offset" programHeaderEntry ((t + k * esz) % U64)).isOk = true ∧
        (fieldValue e "virtual address" programHeaderEntry ((t + k * esz) % U64)).isOk = true ∧
        (fieldValue e "file size" programHeaderEntry ((t + k * esz) % U64)).isOk = true)) :
    ∃ segs, locateExecutableSegments e = .ok segs := by
  obtain ⟨segs, hsegs⟩ :=
    locateLoop_ok e t esz n 0 [] (fun k hk0 hk => h5 k (by omega))
  refine ⟨segs, ?_⟩
  simp only [locateExecutableSegments, h1, h2, h3]
  rw [if_neg (by omega)]
  exact hsegs

set_option maxRecDepth 8192 in
/-- Witness for C10: `B10`'s second entry is non-executable and its segment
offset, virtual address and file size fields lie beyond the buffer's end,
yet segment location succeeds. -/
theorem locate_skips_nonexecutable_witness :
    (0 : Nat) < 2 ∧
    ∃ segs, locateExecutableSegments ⟨64, "little", none, B10, 0⟩ = .ok segs :=
  ⟨by decide,
    locate_skips_nonexecutable ⟨64, "little", none, B10, 0⟩ 0x40 0x38 2
      (by decide) (by decide) (by decide) (by decide) (by decide)⟩

end Iago
